import Mathlib

/-!
Verification development for `csvcut` (src/src/main.rs): a shallow embedding
of the range-grammar parser and the column selection engine, with theorems
checking the natural-language specification against the code.

Conventions of the embedding:
* Rust `u8` values are `Nat`s; the places where `u8` width matters
  (`value.parse::<u8>()` in `natural`) carry an explicit `255` bound.
* `usize::MAX` is `USIZE_MAX = 2 ^ 64 - 1`.
* A Rust panic (an `unwrap` on `None`/`Err`) is modelled explicitly:
  `Target.select` returns `Option` (`none` = panic) and the parser result
  type `PResult` has a dedicated `panic` constructor.
* Parser input `&str` is modelled as `List Char`.
-/

/-- `usize::MAX` on the 64-bit target. -/
def USIZE_MAX : Nat := 2 ^ 64 - 1

/-- The `Range` enum of main.rs: a selected portion.
`Single` = one column, `Left` = left-limited (`4-`),
`Right` = right-limited (`-5`), `Interval` = inclusive interval (`7-9`).
(The spec calls these `Single`, `LeftOpen`, `RightOpen`, `Interval`.) -/
inductive Range where
  | Single (x : Nat)
  | Left (x : Nat)
  | Right (x : Nat)
  | Interval (x : Nat) (y : Nat)
deriving DecidableEq, Repr

/-- `Range::ends` of main.rs: the half-open index interval `[start, end)`
denoted by a range. `Left x` uses `usize::MAX` as its right end. -/
def Range.ends : Range → Nat × Nat
  | .Single x => (x, x + 1)
  | .Left x => (x, USIZE_MAX)
  | .Right x => (0, x + 1)
  | .Interval x y => (x, y + 1)

/-- The `Target` struct of main.rs: an ordered list of ranges. -/
structure Target where
  ranges : List Range
deriving DecidableEq, Repr

/-- The index list one `Range` contributes inside `Target::select`:
`(0..rlen).filter(|i| *i >= left && *i < right)` for `(left, right) = ends()`. -/
def rangeIndexes (rlen : Nat) (x : Range) : List Nat :=
  (List.range rlen).filter fun i => decide (x.ends.1 ≤ i ∧ i < x.ends.2)

/-- The `TargetRow` trait of main.rs: an indexable, length-bearing row
capability (`get` returns `none` out of bounds). -/
structure TargetRow where
  get : Nat → Option String
  len : Nat

/-- The inner loop of `Target::select`: push `row.get(idx).unwrap()` for each
index; `none` models the panic of `unwrap` when a `get` misses. -/
def getAll (row : TargetRow) : List Nat → Option (List String)
  | [] => some []
  | i :: is =>
    match row.get i with
    | none => none
    | some v => (getAll row is).map fun vs => v :: vs

/-- `Target::select` of main.rs: cut out the selected portions of the row.
For each range in declared order, the in-bounds indices of its half-open
interval are collected in ascending order and the row values at those
indices are appended; `none` models a panic of the internal `unwrap`. -/
def Target.select (t : Target) (row : TargetRow) : Option (List String) :=
  getAll row ((t.ranges.map fun x => rangeIndexes row.len x).flatten)

/-- A row backed by a plain list of fields: the `RecordRow` / test `VRow`
implementations of `TargetRow` (`get` is list indexing, `len` list length). -/
def listRow (xs : List String) : TargetRow where
  get := fun i => xs[i]?
  len := xs.length

/-- The values one `Range` contributes to the selection of a list-backed row. -/
def selectRange (x : Range) (xs : List String) : List String :=
  (rangeIndexes xs.length x).filterMap fun i => xs[i]?

/-- The selection of a list-backed row, written as the direct concatenation
over ranges in declared order (the total restriction of `Target.select`). -/
def Target.selectL (t : Target) (xs : List String) : List String :=
  (t.ranges.map fun x => selectRange x xs).flatten

/- ### Helper lemmas about selection -/

theorem mem_rangeIndexes {rlen : Nat} {x : Range} {i : Nat}
    (h : i ∈ rangeIndexes rlen x) : i < rlen := by
  have := List.mem_filter.mp h
  exact List.mem_range.mp this.1

theorem getAll_listRow (xs : List String) (l : List Nat)
    (h : ∀ i ∈ l, i < xs.length) :
    getAll (listRow xs) l = some (l.filterMap fun i => xs[i]?) := by
  induction l with
  | nil => rfl
  | cons i is ih =>
    have hi : i < xs.length := h i (List.mem_cons_self i is)
    have hget : (listRow xs).get i = some xs[i] := by
      simp [listRow, List.getElem?_eq_getElem hi]
    rw [getAll, hget, ih fun j hj => h j (List.mem_cons_of_mem i hj)]
    simp [List.filterMap_cons, listRow, List.getElem?_eq_getElem hi]

theorem select_listRow (t : Target) (xs : List String) :
    t.select (listRow xs) = some (t.selectL xs) := by
  rw [Target.select, Target.selectL]
  have hlen : (listRow xs).len = xs.length := rfl
  rw [hlen]
  rw [getAll_listRow]
  · congr 1
    rw [List.filterMap_flatten, List.map_map]
    rfl
  · intro i hi
    rcases List.mem_flatten.mp hi with ⟨l, hl, hil⟩
    rcases List.mem_map.mp hl with ⟨x, _, rfl⟩
    exact mem_rangeIndexes hil

/- ### The range-grammar parser (nom combinators of main.rs) -/

/-- Result of a nom-style parser on the remaining input: success with the
rest of the input and a value, a recoverable parse error (`nom::Err::Error`,
as produced by `fail`), or a Rust panic (from `unwrap`). -/
inductive PResult (α : Type) where
  | ok (rest : List Char) (val : α)
  | err
  | panic
deriving DecidableEq, Repr

/-- Numeric value of a decimal digit run (what `str::parse` computes on a
string of digits; leading zeros allowed). -/
def digitsVal (ds : List Char) : Nat :=
  ds.foldl (fun a c => a * 10 + (c.toNat - Char.toNat '0')) 0

/-- `natural` of main.rs: `recognize(many1(one_of("0123456789")))` takes the
maximal non-empty digit prefix, then `value.parse::<u8>().unwrap()` — a
value above 255 makes `parse` fail and the `unwrap` panic — and finally
`fail` rejects a value below 1. -/
def natural (input : List Char) : PResult Nat :=
  if (input.takeWhile Char.isDigit).isEmpty then .err
  else if 255 < digitsVal (input.takeWhile Char.isDigit) then .panic
  else if digitsVal (input.takeWhile Char.isDigit) < 1 then .err
  else .ok (input.dropWhile Char.isDigit) (digitsVal (input.takeWhile Char.isDigit))

/-- nom's `tag` for a one-character tag: consume exactly that character. -/
def tagChar (t : Char) : List Char → PResult Unit
  | [] => .err
  | c :: rest => if c = t then .ok rest () else .err

/-- `single` of main.rs: `natural` mapped to `Range::Single(value - 1)`. -/
def single (input : List Char) : PResult Range :=
  match natural input with
  | .ok rest v => .ok rest (Range.Single (v - 1))
  | .err => .err
  | .panic => .panic

/-- `left` of main.rs: `terminated(natural, tag("-"))` mapped to
`Range::Left(limit - 1)`. -/
def left (input : List Char) : PResult Range :=
  match natural input with
  | .ok rest v =>
    match tagChar '-' rest with
    | .ok rest2 _ => .ok rest2 (Range.Left (v - 1))
    | .err => .err
    | .panic => .panic
  | .err => .err
  | .panic => .panic

/-- `right` of main.rs: `preceded(tag("-"), natural)` mapped to
`Range::Right(limit - 1)`. -/
def right (input : List Char) : PResult Range :=
  match tagChar '-' input with
  | .ok rest _ =>
    match natural rest with
    | .ok rest2 v => .ok rest2 (Range.Right (v - 1))
    | .err => .err
    | .panic => .panic
  | .err => .err
  | .panic => .panic

/-- `interval` of main.rs: `separated_pair(natural, tag("-"), natural)`
mapped to `Range::Interval(left_limit - 1, right_limit - 1)`. -/
def interval (input : List Char) : PResult Range :=
  match natural input with
  | .ok rest1 a =>
    match tagChar '-' rest1 with
    | .ok rest2 _ =>
      match natural rest2 with
      | .ok rest3 b => .ok rest3 (Range.Interval (a - 1) (b - 1))
      | .err => .err
      | .panic => .panic
    | .err => .err
    | .panic => .panic
  | .err => .err
  | .panic => .panic

/-- `range` of main.rs: `alt((interval, right, left, single))` — ordered
alternation, a later parser is tried only on a recoverable error of the
earlier one, and a panic aborts everything. -/
def range (input : List Char) : PResult Range :=
  match interval input with
  | .ok rest v => .ok rest v
  | .panic => .panic
  | .err =>
    match right input with
    | .ok rest v => .ok rest v
    | .panic => .panic
    | .err =>
      match left input with
      | .ok rest v => .ok rest v
      | .panic => .panic
      | .err => single input

theorem natural_ok_length {input rest : List Char} {v : Nat}
    (h : natural input = .ok rest v) : rest.length < input.length := by
  unfold natural at h
  split at h
  · exact absurd h (by simp)
  next hne =>
    split at h
    · exact absurd h (by simp)
    split at h
    · exact absurd h (by simp)
    cases h
    have hsplit : (input.takeWhile Char.isDigit).length
        + (input.dropWhile Char.isDigit).length = input.length := by
      rw [← List.length_append, List.takeWhile_append_dropWhile]
    have hpos : 0 < (input.takeWhile Char.isDigit).length := by
      cases hq : input.takeWhile Char.isDigit with
      | nil => rw [hq] at hne; exact absurd rfl hne
      | cons a l => simp
    omega

theorem tagChar_ok_length {t : Char} {input rest : List Char} {u : Unit}
    (h : tagChar t input = .ok rest u) : rest.length + 1 = input.length := by
  cases input with
  | nil => exact absurd h (by simp [tagChar])
  | cons c cs =>
    simp only [tagChar] at h
    by_cases hc : c = t
    · rw [if_pos hc] at h
      cases h
      rfl
    · rw [if_neg hc] at h
      exact PResult.noConfusion h

theorem range_ok_length {input rest : List Char} {v : Range}
    (h : range input = .ok rest v) : rest.length < input.length := by
  unfold range at h
  split at h
  next heq =>
    cases h
    unfold interval at heq
    split at heq
    next h1 =>
      split at heq
      next h2 =>
        split at heq
        next h3 =>
          cases heq
          have := natural_ok_length h1
          have := tagChar_ok_length h2
          have := natural_ok_length h3
          omega
        · exact absurd heq (by simp)
        · exact absurd heq (by simp)
      · exact absurd heq (by simp)
      · exact absurd heq (by simp)
    · exact absurd heq (by simp)
    · exact absurd heq (by simp)
  · exact absurd h (by simp)
  · split at h
    next heq =>
      cases h
      unfold right at heq
      split at heq
      next h1 =>
        split at heq
        next h2 =>
          cases heq
          have := tagChar_ok_length h1
          have := natural_ok_length h2
          omega
        · exact absurd heq (by simp)
        · exact absurd heq (by simp)
      · exact absurd heq (by simp)
      · exact absurd heq (by simp)
    · exact absurd h (by simp)
    · split at h
      next heq =>
        cases h
        unfold left at heq
        split at heq
        next h1 =>
          split at heq
          next h2 =>
            cases heq
            have := natural_ok_length h1
            have := tagChar_ok_length h2
            omega
          · exact absurd heq (by simp)
          · exact absurd heq (by simp)
        · exact absurd heq (by simp)
        · exact absurd heq (by simp)
      · exact absurd h (by simp)
      · unfold single at h
        split at h
        next h1 =>
          cases h
          exact natural_ok_length h1
        · exact absurd h (by simp)
        · exact absurd h (by simp)

/-- The loop of nom's `separated_list1(tag(","), range)`: repeatedly try the
separator and then an element; if either fails recoverably, stop and return
the input as it stood before the separator. A panic aborts. -/
def targetLoop (acc : List Range) (input : List Char) : PResult Target :=
  match h1 : tagChar ',' input with
  | .panic => .panic
  | .err => .ok input ⟨acc⟩
  | .ok rest1 _ =>
    match h2 : range rest1 with
    | .err => .ok input ⟨acc⟩
    | .panic => .panic
    | .ok rest2 v => targetLoop (acc ++ [v]) rest2
termination_by input.length
decreasing_by
  have e1 := tagChar_ok_length h1
  have e2 := range_ok_length h2
  omega

/-- `target` of main.rs (= the spec's `parse_selector`):
`separated_list1(tag(","), range)` building a `Target`. -/
def target (input : List Char) : PResult Target :=
  match range input with
  | .err => .err
  | .panic => .panic
  | .ok rest v => targetLoop [v] rest

/- ### Unfolding lemmas for the separated-list loop -/

theorem targetLoop_stop (acc : List Range) (input : List Char)
    (h : tagChar ',' input = .err) : targetLoop acc input = .ok input ⟨acc⟩ := by
  rw [targetLoop]
  split
  next heq =>
    rw [h] at heq
    exact PResult.noConfusion heq
  next => rfl
  next rest1 u heq =>
    rw [h] at heq
    exact PResult.noConfusion heq

theorem targetLoop_step (acc : List Range) (input rest1 rest2 : List Char)
    (v : Range) (h1 : tagChar ',' input = .ok rest1 ())
    (h2 : range rest1 = .ok rest2 v) :
    targetLoop acc input = targetLoop (acc ++ [v]) rest2 := by
  rw [targetLoop]
  split
  next heq =>
    rw [h1] at heq
    exact PResult.noConfusion heq
  next heq =>
    rw [h1] at heq
    exact PResult.noConfusion heq
  next r1 u heq =>
    rw [h1] at heq
    cases heq
    split
    next heq2 =>
      rw [h2] at heq2
      exact PResult.noConfusion heq2
    next heq2 =>
      rw [h2] at heq2
      exact PResult.noConfusion heq2
    next r2 v2 heq2 =>
      rw [h2] at heq2
      cases heq2
      rfl

theorem targetLoop_elem_err (acc : List Range) (input rest1 : List Char)
    (h1 : tagChar ',' input = .ok rest1 ()) (h2 : range rest1 = .err) :
    targetLoop acc input = .ok input ⟨acc⟩ := by
  rw [targetLoop]
  split
  next heq =>
    rw [h1] at heq
    exact PResult.noConfusion heq
  next => rfl
  next r1 u heq =>
    rw [h1] at heq
    cases heq
    split
    next => rfl
    next heq2 =>
      rw [h2] at heq2
      exact PResult.noConfusion heq2
    next r2 v2 heq2 =>
      rw [h2] at heq2
      exact PResult.noConfusion heq2

/- ### Decimal representations: facts for 0..255, by evaluation -/

set_option maxRecDepth 10000 in
set_option maxHeartbeats 1000000 in
theorem repr_facts : ∀ n : Fin 256,
    ((Nat.repr n.val).data.all Char.isDigit = true) ∧
    digitsVal (Nat.repr n.val).data = n.val ∧
    (Nat.repr n.val).data ≠ [] := by decide

theorem repr_all_digit {n : Nat} (h : n ≤ 255) :
    ∀ c ∈ (Nat.repr n).data, c.isDigit = true := by
  intro c hc
  exact List.all_eq_true.mp (repr_facts ⟨n, by omega⟩).1 c hc

theorem repr_digitsVal {n : Nat} (h : n ≤ 255) : digitsVal (Nat.repr n).data = n :=
  (repr_facts ⟨n, by omega⟩).2.1

theorem repr_ne_nil {n : Nat} (h : n ≤ 255) : (Nat.repr n).data ≠ [] :=
  (repr_facts ⟨n, by omega⟩).2.2

theorem repr_head_digit {n : Nat} (h : n ≤ 255) :
    ∃ c t, (Nat.repr n).data = c :: t ∧ c.isDigit = true := by
  cases hq : (Nat.repr n).data with
  | nil => exact absurd hq (repr_ne_nil h)
  | cons c t =>
    refine ⟨c, t, rfl, repr_all_digit h c ?_⟩
    rw [hq]
    exact List.mem_cons_self c t

/- ### takeWhile and dropWhile on digit-prefixed input -/

theorem takeWhile_append_of_all {p : Char → Bool} {l r : List Char}
    (h : ∀ c ∈ l, p c = true) : (l ++ r).takeWhile p = l ++ r.takeWhile p := by
  induction l with
  | nil => rfl
  | cons a t ih =>
    rw [List.cons_append, List.takeWhile_cons, h a (List.mem_cons_self a t),
      ih fun c hc => h c (List.mem_cons_of_mem a hc)]
    simp

theorem dropWhile_append_of_all {p : Char → Bool} {l r : List Char}
    (h : ∀ c ∈ l, p c = true) : (l ++ r).dropWhile p = r.dropWhile p := by
  induction l with
  | nil => rfl
  | cons a t ih =>
    rw [List.cons_append, List.dropWhile_cons, h a (List.mem_cons_self a t)]
    simp only [if_true]
    exact ih fun c hc => h c (List.mem_cons_of_mem a hc)

theorem dropWhile_eq_self_of_takeWhile_nil {p : Char → Bool} {r : List Char}
    (h : r.takeWhile p = []) : r.dropWhile p = r := by
  have hd := List.takeWhile_append_dropWhile (p := p) (l := r)
  rw [h] at hd
  simpa using hd

theorem takeWhile_cons_false {p : Char → Bool} {c : Char} (l : List Char)
    (h : p c = false) : (c :: l).takeWhile p = [] := by
  rw [List.takeWhile_cons, h]
  simp

/- ### Behaviour of the component parsers on well-formed numerals -/

theorem natural_nil : natural [] = .err := rfl

theorem natural_nondigit (c : Char) (l : List Char) (h : c.isDigit = false) :
    natural (c :: l) = .err := by
  unfold natural
  rw [takeWhile_cons_false l h]
  simp

theorem natural_repr_append (n : Nat) (rest : List Char) (h1 : 1 ≤ n)
    (h2 : n ≤ 255) (hrest : rest.takeWhile Char.isDigit = []) :
    natural ((Nat.repr n).data ++ rest) = .ok rest n := by
  have hall := repr_all_digit h2
  have htake : ((Nat.repr n).data ++ rest).takeWhile Char.isDigit
      = (Nat.repr n).data := by
    rw [takeWhile_append_of_all hall, hrest, List.append_nil]
  have hdrop : ((Nat.repr n).data ++ rest).dropWhile Char.isDigit = rest := by
    rw [dropWhile_append_of_all hall, dropWhile_eq_self_of_takeWhile_nil hrest]
  have hA : ¬ ((Nat.repr n).data.isEmpty = true) := by
    simpa using repr_ne_nil h2
  unfold natural
  rw [htake, hdrop, repr_digitsVal h2, if_neg hA,
    if_neg (by omega : ¬ (255 < n)), if_neg (by omega : ¬ (n < 1))]

theorem natural_repr (n : Nat) (h1 : 1 ≤ n) (h2 : n ≤ 255) :
    natural (Nat.repr n).data = .ok [] n := by
  have h := natural_repr_append n [] h1 h2 rfl
  rwa [List.append_nil] at h

theorem tagChar_cons_self (t : Char) (l : List Char) :
    tagChar t (t :: l) = .ok l () := by
  simp [tagChar]

theorem tagChar_cons_ne {c d : Char} (l : List Char) (h : c ≠ d) :
    tagChar d (c :: l) = .err := by
  simp [tagChar, h]

theorem tagChar_nil (t : Char) : tagChar t [] = .err := rfl

theorem digit_ne_dash {c : Char} (h : c.isDigit = true) : c ≠ '-' := by
  intro he
  rw [he] at h
  exact absurd h (by decide)

theorem digit_ne_comma {c : Char} (h : c.isDigit = true) : c ≠ ',' := by
  intro he
  rw [he] at h
  exact absurd h (by decide)

theorem tagChar_repr_err {n : Nat} (d : Char) (r : List Char) (h : n ≤ 255)
    (hd : d.isDigit = false) : tagChar d ((Nat.repr n).data ++ r) = .err := by
  obtain ⟨c, t, hct, hcd⟩ := repr_head_digit h
  rw [hct, List.cons_append]
  refine tagChar_cons_ne _ fun he => ?_
  rw [he] at hcd
  rw [hcd] at hd
  exact Bool.noConfusion hd

/- ### The four grammar shapes parse as specified -/

theorem target_repr_single (n : Nat) (h1 : 1 ≤ n) (h2 : n ≤ 255) :
    target (Nat.repr n).data = .ok [] ⟨[Range.Single (n - 1)]⟩ := by
  have hnat := natural_repr n h1 h2
  have hdash : tagChar '-' (Nat.repr n).data = .err := by
    have h := tagChar_repr_err '-' [] h2 (by decide)
    rwa [List.append_nil] at h
  have hrange : range (Nat.repr n).data = .ok [] (Range.Single (n - 1)) := by
    simp only [range, interval, right, left, single, hnat, hdash, tagChar_nil]
  rw [target, hrange]
  exact targetLoop_stop _ _ rfl

theorem target_repr_left (i : Nat) (h1 : 1 ≤ i) (h2 : i ≤ 255) :
    target ((Nat.repr i).data ++ [ '-' ]) = .ok [] ⟨[Range.Left (i - 1)]⟩ := by
  have hnat : natural ((Nat.repr i).data ++ [ '-' ]) = .ok [ '-' ] i :=
    natural_repr_append i [ '-' ] h1 h2 (by decide)
  have hdash : tagChar '-' ((Nat.repr i).data ++ [ '-' ]) = .err :=
    tagChar_repr_err '-' [ '-' ] h2 (by decide)
  have hrange : range ((Nat.repr i).data ++ [ '-' ])
      = .ok [] (Range.Left (i - 1)) := by
    simp only [range, interval, right, left, single, hnat, hdash,
      tagChar_cons_self, natural_nil]
  rw [target, hrange]
  exact targetLoop_stop _ _ rfl

theorem target_repr_right (j : Nat) (h1 : 1 ≤ j) (h2 : j ≤ 255) :
    target ('-' :: (Nat.repr j).data) = .ok [] ⟨[Range.Right (j - 1)]⟩ := by
  have hnd : natural ('-' :: (Nat.repr j).data) = .err :=
    natural_nondigit '-' _ (by decide)
  have hnat := natural_repr j h1 h2
  have hrange : range ('-' :: (Nat.repr j).data)
      = .ok [] (Range.Right (j - 1)) := by
    simp only [range, interval, right, left, single, hnd,
      tagChar_cons_self, hnat]
  rw [target, hrange]
  exact targetLoop_stop _ _ rfl

theorem target_repr_interval (i j : Nat) (hi1 : 1 ≤ i) (hi2 : i ≤ 255)
    (hj1 : 1 ≤ j) (hj2 : j ≤ 255) :
    target ((Nat.repr i).data ++ '-' :: (Nat.repr j).data)
      = .ok [] ⟨[Range.Interval (i - 1) (j - 1)]⟩ := by
  have hnat1 : natural ((Nat.repr i).data ++ '-' :: (Nat.repr j).data)
      = .ok ('-' :: (Nat.repr j).data) i :=
    natural_repr_append i ('-' :: (Nat.repr j).data) hi1 hi2
      (takeWhile_cons_false _ (by decide))
  have hnat2 := natural_repr j hj1 hj2
  have hrange : range ((Nat.repr i).data ++ '-' :: (Nat.repr j).data)
      = .ok [] (Range.Interval (i - 1) (j - 1)) := by
    simp only [range, interval, hnat1, tagChar_cons_self, hnat2]
  rw [target, hrange]
  exact targetLoop_stop _ _ rfl

theorem filterMap_range_getElem (xs : List String) :
    ((List.range xs.length).filterMap fun i => xs[i]?) = xs := by
  induction xs with
  | nil => rfl
  | cons a t ih =>
    rw [List.length_cons, List.range_succ_eq_map, List.filterMap_cons,
      List.filterMap_map]
    have hcomp : ((fun i => (a :: t)[i]?) ∘ Nat.succ) = fun i => t[i]? := by
      funext i
      simp
    rw [hcomp, ih]
    simp

/- ### The writer, the command line surface and main -/

/-- The `Cli` struct of main.rs: the selector string, the input delimiter,
the JSON flag and the header flag. -/
structure Cli where
  target : String
  delimiter : Char
  json : Bool
  header : Bool

/-- What one stdout line holds, at the data level: the plain-text rendering
is concrete (`write_csv` joins with a comma); JSON text serialization is
the external `serde_json` collaborator, so only the payload handed to it is
recorded. -/
inductive Rendered where
  | csvLine (line : String)
  | jsonArray (values : List String)
  | jsonObject (entries : String → Option String)

/-- One `HashMap::insert` of `write_json_object`: key `k` now maps to `v`,
other keys are unchanged (a later insert for the same key overwrites). -/
def insertKV (m : String → Option String) (k v : String) :
    String → Option String :=
  fun q => if q = k then some v else m q

/-- The map built by `write_json_object`: `row.iter().zip(headers.iter())`
(truncating to the shorter sequence), then `map.insert(h, v)` for each
zipped pair `(v, h)`. -/
def jsonObjectMap (row headers : List String) : String → Option String :=
  (row.zip headers).foldl (fun m p => insertKV m p.2 p.1) fun _ => none

/-- The rendering dispatch of `ResultWriter` (`write_csv` / `write_json`):
plain mode joins the values with a comma; JSON mode emits an array when no
header selection is stored and an object otherwise. -/
def writeRendered (json : Bool) (headers : Option (List String))
    (r : List String) : Rendered :=
  if json then
    match headers with
    | none => .jsonArray r
    | some hs => .jsonObject (jsonObjectMap r hs)
  else .csvLine (String.intercalate "," r)

/-- An observable per-row output event: a rendered line on stdout or a
diagnostic on stderr. -/
inductive Event where
  | stdout (r : Rendered)
  | stderr (msg : String)

/-- `ResultWriter::write`: a row that arrived as an error is printed to
stderr; a good row is rendered to stdout. -/
def resultWrite (json : Bool) (headers : Option (List String))
    (r : Except String (List String)) : Event :=
  match r with
  | .error e => .stderr e
  | .ok v => .stdout (writeRendered json headers v)

/-- `ResultWriter::new`: the stored headers are the selection applied to
the header row. -/
def writerHeaders (t : Target) (headers : Option (List String)) :
    Option (List String) :=
  headers.map fun x => t.selectL x

/-- The row loop of `main`:
`input.0.map(|x| x.map(|z| t.select(z))).for_each(|x| writer.write(x))`. -/
def mainLoop (t : Target) (json : Bool) (hs : Option (List String)) :
    List (Except String (List String)) → List Event
  | [] => []
  | r :: rest =>
    resultWrite json hs (r.map fun z => t.selectL z) :: mainLoop t json hs rest

/-- Outcome of `main`: each fatal startup error is its own case (clap's
`cmd.error(..).exit()` terminates before any row is read), a parser panic
aborts, and `run` carries the per-row output events. -/
inductive MainResult where
  | fatalDelimiter
  | fatalNoParse
  | fatalTrailing (parsed : Target) (remaining : List Char)
  | fatalPanic
  | run (events : List Event)

/-- `main` of main.rs: validate the delimiter, parse the selector and
dispatch. The row stream and the optional header row come from the
external `read_csv` collaborator. -/
def csvcutMain (cli : Cli) (headers : Option (List String))
    (rows : List (Except String (List String))) : MainResult :=
  if 1 < cli.delimiter.utf8Size then .fatalDelimiter
  else
    match target cli.target.data with
    | .err => .fatalNoParse
    | .panic => .fatalPanic
    | .ok [] t => .run (mainLoop t cli.json (writerHeaders t headers) rows)
    | .ok rest t => .fatalTrailing t rest

/-- Process exit status: clap's error exit is status 2, a panic aborts with
status 101, a completed run exits 0. -/
def MainResult.exitCode : MainResult → Nat
  | .run _ => 0
  | .fatalPanic => 101
  | _ => 2

/-- The per-row events a result produces; every fatal outcome produces
none (no row is processed). -/
def MainResult.events : MainResult → List Event
  | .run es => es
  | _ => []

/- ### Helper lemmas for the writer and main -/

theorem mainLoop_eq_map (t : Target) (j : Bool) (hs : Option (List String))
    (rows : List (Except String (List String))) :
    mainLoop t j hs rows
      = rows.map fun r => resultWrite j hs (r.map fun z => t.selectL z) := by
  induction rows with
  | nil => rfl
  | cons r rest ih =>
    rw [mainLoop, ih]
    rfl

theorem getAll_isSome (row : TargetRow) (l : List Nat)
    (h : ∀ i ∈ l, (row.get i).isSome = true) : (getAll row l).isSome = true := by
  induction l with
  | nil => rfl
  | cons i is ih =>
    have hi := h i (List.mem_cons_self i is)
    have ht := ih fun j hj => h j (List.mem_cons_of_mem i hj)
    rw [getAll]
    cases ho : row.get i with
    | none =>
      rw [ho] at hi
      exact Bool.noConfusion hi
    | some v =>
      cases hg : getAll row is with
      | none =>
        rw [hg] at ht
        exact Bool.noConfusion ht
      | some vs => rfl

theorem foldl_insertKV (l : List (String × String))
    (m : String → Option String) (q : String) :
    (l.foldl (fun m p => insertKV m p.2 p.1) m) q
      = match l.reverse.find? (fun p => p.2 == q) with
        | some p => some p.1
        | none => m q := by
  induction l generalizing m with
  | nil => rfl
  | cons a t ih =>
    rw [List.foldl_cons, ih, List.reverse_cons, List.find?_append]
    cases hf : t.reverse.find? fun p => p.2 == q with
    | some p => rfl
    | none =>
      by_cases hq : q = a.2
      · simp [insertKV, List.find?, hq]
      · have hne : (a.2 == q) = false := by
          simp
          exact fun he => hq he.symm
        simp [insertKV, List.find?, hne, hq]

theorem zip_map_snd (r hs : List String) :
    (r.zip hs).map Prod.snd = hs.take (min r.length hs.length) := by
  induction r generalizing hs with
  | nil => simp
  | cons a t ih =>
    cases hs with
    | nil => simp
    | cons b u =>
      simp only [List.zip_cons_cons, List.map_cons, List.length_cons,
        Nat.succ_min_succ, List.take_succ_cons]
      rw [ih]

/- ### Claim theorems -/

/-- C1: for every selector and every row, `select` returns exactly the
concatenation, over the ranges in declared order, of the row's field values
at positions in the range's half-open interval `[start, end)` intersected
with `[0, row.len())`, taken in ascending position order (`Target.selectL`
is literally that concatenation); overlapping ranges duplicate values in
declared order — row `["0","1","2","3","4","5"]` with selector
`[Single(3), Interval(2,4)]` yields exactly `["3","2","3","4"]` — and an
`Interval(i, j)` with `i > j` contributes nothing. -/
theorem C1_select_concat :
    (∀ (t : Target) (xs : List String),
      t.select (listRow xs) = some (t.selectL xs)) ∧
    Target.select ⟨[Range.Single 3, Range.Interval 2 4]⟩
      (listRow ["0", "1", "2", "3", "4", "5"])
      = some ["3", "2", "3", "4"] ∧
    ∀ (i j : Nat) (xs : List String), j < i →
      selectRange (Range.Interval i j) xs = [] := by
  refine ⟨select_listRow, by decide, ?_⟩
  intro i j xs h
  rw [selectRange]
  have he : rangeIndexes xs.length (Range.Interval i j) = [] := by
    rw [rangeIndexes]
    apply List.filter_eq_nil_iff.mpr
    intro a _
    simp only [Range.ends, decide_eq_true_eq]
    omega
  rw [he]
  rfl

/-- Witness for C1 at concrete inputs: an interval with `i > j` selects
nothing from a concrete row. -/
theorem C1_select_concat_witness :
    selectRange (Range.Interval 4 2) ["a", "b"] = [] :=
  C1_select_concat.2.2 4 2 ["a", "b"] (by decide)

/-- C4: selecting past the end of the row never fails: `Single(i)` and
`Left(i)` with `i ≥ row.len()` contribute nothing, `Right(i)` with
`i ≥ row.len() - 1` selects the entire row (clamped), and `select` on a
list-backed row always succeeds (out-of-range positions are filtered out,
never an error). -/
theorem C4_out_of_range :
    (∀ (i : Nat) (xs : List String), xs.length ≤ i →
      selectRange (Range.Single i) xs = []) ∧
    (∀ (i : Nat) (xs : List String), xs.length ≤ i →
      selectRange (Range.Left i) xs = []) ∧
    (∀ (i : Nat) (xs : List String), xs.length - 1 ≤ i →
      selectRange (Range.Right i) xs = xs) ∧
    ∀ (t : Target) (xs : List String),
      (t.select (listRow xs)).isSome = true := by
  refine ⟨?_, ?_, ?_, ?_⟩
  · intro i xs h
    rw [selectRange]
    have he : rangeIndexes xs.length (Range.Single i) = [] := by
      rw [rangeIndexes]
      apply List.filter_eq_nil_iff.mpr
      intro a ha
      have := List.mem_range.mp ha
      simp only [Range.ends, decide_eq_true_eq]
      omega
    rw [he]
    rfl
  · intro i xs h
    rw [selectRange]
    have he : rangeIndexes xs.length (Range.Left i) = [] := by
      rw [rangeIndexes]
      apply List.filter_eq_nil_iff.mpr
      intro a ha
      have := List.mem_range.mp ha
      simp only [Range.ends, decide_eq_true_eq]
      omega
    rw [he]
    rfl
  · intro i xs h
    rw [selectRange]
    have he : rangeIndexes xs.length (Range.Right i) = List.range xs.length := by
      rw [rangeIndexes]
      apply List.filter_eq_self.mpr
      intro a ha
      have := List.mem_range.mp ha
      simp only [Range.ends, decide_eq_true_eq]
      omega
    rw [he]
    exact filterMap_range_getElem xs
  · intro t xs
    rw [select_listRow]
    rfl

/-- Witness for C4 at concrete inputs. -/
theorem C4_out_of_range_witness :
    selectRange (Range.Single 1) ["top"] = [] ∧
    selectRange (Range.Left 2) ["top"] = [] ∧
    selectRange (Range.Right 3) ["top", "two"] = ["top", "two"] :=
  ⟨C4_out_of_range.1 1 ["top"] (by decide),
   C4_out_of_range.2.1 2 ["top"] (by decide),
   C4_out_of_range.2.2.1 3 ["top", "two"] (by decide)⟩

/-- C9: `select` is total and its internal `unwrap` is unreachable: for any
row satisfying the `TargetRow` capability contract (`get i` is `some` for
every `i < len`), `select` never panics, because every index it
dereferences lies in the filtered range `[0, row.len())`. -/
theorem C9_select_total (t : Target) (row : TargetRow)
    (h : ∀ i, i < row.len → (row.get i).isSome = true) :
    (t.select row).isSome = true := by
  rw [Target.select]
  apply getAll_isSome
  intro i hi
  rcases List.mem_flatten.mp hi with ⟨l, hl, hil⟩
  rcases List.mem_map.mp hl with ⟨x, _, rfl⟩
  exact h i (mem_rangeIndexes hil)

/-- Witness for C9: the contract hypothesis discharged on a concrete
list-backed row. -/
theorem C9_select_total_witness :
    (Target.select ⟨[Range.Single 0]⟩ (listRow ["a"])).isSome = true :=
  C9_select_total ⟨[Range.Single 0]⟩ (listRow ["a"]) fun i hi => by
    have h0 : i = 0 := Nat.lt_one_iff.mp hi
    subst h0
    rfl

/-- C2 (code evaluated at the failing input): a component number above 255
does not produce a parse error — `natural` hits the panic of
`value.parse::<u8>().unwrap()`, and the whole selector parse aborts. -/
theorem C2_overflow_panics :
    natural ("256".data) = .panic ∧
    target ("256".data) = .panic ∧
    target ("300".data) = .panic := by
  refine ⟨by decide, by decide, by decide⟩

/-- C3: each grammar shape parses to its descriptor, one-based input
normalized to zero-based: for `1 ≤ n ≤ 255`, `str(n)` parses to
`Single(n-1)`, `"i-"` to `Left(i-1)` (the spec's `LeftOpen`), `"-j"` to
`Right(j-1)` (the spec's `RightOpen`), `"i-j"` to `Interval(i-1, j-1)`,
all with no remaining input; the alternation order makes `"4-8"` parse to
`Interval(3,7)` with nothing left, never `Left(3)` with leftover `"8"`. -/
theorem C3_grammar_shapes :
    (∀ n : Nat, 1 ≤ n → n ≤ 255 →
      target (Nat.repr n).data = .ok [] ⟨[Range.Single (n - 1)]⟩) ∧
    (∀ i : Nat, 1 ≤ i → i ≤ 255 →
      target ((Nat.repr i).data ++ [ '-' ]) = .ok [] ⟨[Range.Left (i - 1)]⟩) ∧
    (∀ j : Nat, 1 ≤ j → j ≤ 255 →
      target ('-' :: (Nat.repr j).data) = .ok [] ⟨[Range.Right (j - 1)]⟩) ∧
    (∀ i j : Nat, 1 ≤ i → i ≤ 255 → 1 ≤ j → j ≤ 255 →
      target ((Nat.repr i).data ++ '-' :: (Nat.repr j).data)
        = .ok [] ⟨[Range.Interval (i - 1) (j - 1)]⟩) ∧
    target ("4-8".data) = .ok [] ⟨[Range.Interval 3 7]⟩ := by
  refine ⟨target_repr_single, target_repr_left, target_repr_right,
    target_repr_interval, ?_⟩
  have hr : range ("4-8".data) = .ok [] (Range.Interval 3 7) := by decide
  rw [target, hr]
  exact targetLoop_stop _ _ rfl

/-- Witness for C3: the four shapes at concrete numerals. -/
theorem C3_grammar_shapes_witness :
    target (Nat.repr 2).data = .ok [] ⟨[Range.Single 1]⟩ ∧
    target ((Nat.repr 4).data ++ [ '-' ]) = .ok [] ⟨[Range.Left 3]⟩ ∧
    target ('-' :: (Nat.repr 10).data) = .ok [] ⟨[Range.Right 9]⟩ ∧
    target ((Nat.repr 14).data ++ '-' :: (Nat.repr 101).data)
      = .ok [] ⟨[Range.Interval 13 100]⟩ :=
  ⟨C3_grammar_shapes.1 2 (by decide) (by decide),
   C3_grammar_shapes.2.1 4 (by decide) (by decide),
   C3_grammar_shapes.2.2.1 10 (by decide) (by decide),
   C3_grammar_shapes.2.2.2.1 14 101 (by decide) (by decide) (by decide) (by decide)⟩

/-- C5: a zero component is rejected: `natural` succeeds only with a value
of at least 1, so no `RangeSpec` is ever derived from a zero component, and
selector strings with a zero digit run fail to parse — or, in `"3-0"`,
leave the zero unconsumed so that no range is built from it. -/
theorem C5_zero_rejected :
    (∀ (input rest : List Char) (v : Nat),
      natural input = .ok rest v → 1 ≤ v) ∧
    target ("0".data) = .err ∧
    target ("00".data) = .err ∧
    target ("0-3".data) = .err ∧
    target ("-0".data) = .err ∧
    target ("3-0".data) = .ok [ '0' ] ⟨[Range.Left 2]⟩ := by
  refine ⟨?_, by decide, by decide, by decide, by decide, ?_⟩
  · intro input rest v h
    unfold natural at h
    split at h
    · exact absurd h (by simp)
    split at h
    · exact absurd h (by simp)
    split at h
    · exact absurd h (by simp)
    next h3 =>
      cases h
      omega
  · have hr : range ("3-0".data) = .ok [ '0' ] (Range.Left 2) := by decide
    rw [target, hr]
    exact targetLoop_stop _ _ (by decide)

/-- Witness for C5: `natural` evaluated on a concrete numeral. -/
theorem C5_zero_rejected_witness :
    natural ("7".data) = .ok [] 7 ∧ (1 : Nat) ≤ 7 :=
  ⟨by decide, C5_zero_rejected.1 ("7".data) [] 7 (by decide)⟩

/-- C6: a selector that parses to a valid prefix with trailing unconsumed
characters is a distinct fatal startup error, separate from the no-parse
error, carrying the recognized prefix and the offending remainder; the
process exits non-zero and processes no rows. -/
theorem C6_trailing_fatal :
    (∀ (c : Cli) (hs : Option (List String))
      (rows : List (Except String (List String)))
      (t : Target) (rest : List Char),
      target c.target.data = .ok rest t → rest ≠ [] →
      c.delimiter.utf8Size ≤ 1 →
      csvcutMain c hs rows = .fatalTrailing t rest ∧
      (csvcutMain c hs rows).events = [] ∧
      (csvcutMain c hs rows).exitCode ≠ 0) ∧
    ∀ (t : Target) (rest : List Char),
      MainResult.fatalTrailing t rest ≠ .fatalNoParse := by
  constructor
  · intro c hs rows t rest ht hne hd
    have hmain : csvcutMain c hs rows = .fatalTrailing t rest := by
      unfold csvcutMain
      rw [if_neg (by omega : ¬ 1 < c.delimiter.utf8Size), ht]
      cases rest with
      | nil => exact absurd rfl hne
      | cons a as => rfl
    refine ⟨hmain, ?_, ?_⟩
    · rw [hmain]
      rfl
    · rw [hmain]
      show (2 : Nat) ≠ 0
      decide
  · intro t rest h
    exact MainResult.noConfusion h

/-- Witness for C6: the selector `"5-0"` parses to the prefix `[Left(4)]`
with remainder `"0"` and aborts. -/
theorem C6_trailing_fatal_witness :
    csvcutMain ⟨"5-0", ',', false, false⟩ none []
      = .fatalTrailing ⟨[Range.Left 4]⟩ [ '0' ] :=
  (C6_trailing_fatal.1 ⟨"5-0", ',', false, false⟩ none [] ⟨[Range.Left 4]⟩
    [ '0' ]
    (by
      show target ("5-0".data) = .ok [ '0' ] ⟨[Range.Left 4]⟩
      have hr : range ("5-0".data) = .ok [ '0' ] (Range.Left 4) := by decide
      rw [target, hr]
      exact targetLoop_stop _ _ (by decide))
    (by decide) (by decide)).1

/-- C7: a row that arrives as an error produces a diagnostic on the error
stream for that row only and is skipped, while every well-formed row is
selected and emitted in input order; the output has one event per input
row, so no per-row error aborts the stream. -/
theorem C7_per_row_stream (t : Target) (j : Bool) (hs : Option (List String))
    (rows : List (Except String (List String))) :
    (mainLoop t j hs rows).length = rows.length ∧
    ∀ k : Nat, (mainLoop t j hs rows)[k]?
      = (rows[k]?).map fun r =>
          match r with
          | .error e => Event.stderr e
          | .ok xs => Event.stdout (writeRendered j hs (t.selectL xs)) := by
  have hf : (fun r : Except String (List String) =>
      resultWrite j hs (r.map fun z => t.selectL z))
      = fun r => match r with
        | .error e => Event.stderr e
        | .ok xs => Event.stdout (writeRendered j hs (t.selectL xs)) := by
    funext r
    cases r with
    | error e => rfl
    | ok xs => rfl
  constructor
  · rw [mainLoop_eq_map, List.length_map]
  · intro k
    rw [mainLoop_eq_map, List.getElem?_map, hf]

/-- C8: in plain-text mode every emitted row is the selected values joined
with a comma, and the process output does not depend on the configured
input delimiter (for any two valid delimiters the outcome is identical). -/
theorem C8_comma_output :
    (∀ (hs : Option (List String)) (v : List String),
      resultWrite false hs (.ok v)
        = .stdout (.csvLine (String.intercalate "," v))) ∧
    ∀ (c₁ c₂ : Cli) (hs : Option (List String))
      (rows : List (Except String (List String))),
      c₁.target = c₂.target → c₁.json = c₂.json →
      c₁.delimiter.utf8Size ≤ 1 → c₂.delimiter.utf8Size ≤ 1 →
      csvcutMain c₁ hs rows = csvcutMain c₂ hs rows := by
  constructor
  · intro hs v
    rfl
  · intro c₁ c₂ hs rows htg hj h1 h2
    unfold csvcutMain
    rw [if_neg (by omega : ¬ 1 < c₁.delimiter.utf8Size),
      if_neg (by omega : ¬ 1 < c₂.delimiter.utf8Size), htg, hj]

/-- Witness for C8: comma-joined output and delimiter independence at
concrete inputs (delimiters `,` and `;`). -/
theorem C8_comma_output_witness :
    resultWrite false none (.ok ["a", "b"])
      = .stdout (.csvLine (String.intercalate "," ["a", "b"])) ∧
    csvcutMain ⟨"1", ',', false, false⟩ none [.ok ["x", "y"]]
      = csvcutMain ⟨"1", ';', false, false⟩ none [.ok ["x", "y"]] :=
  ⟨C8_comma_output.1 none ["a", "b"],
   C8_comma_output.2 ⟨"1", ',', false, false⟩ ⟨"1", ';', false, false⟩ none
     [.ok ["x", "y"]] rfl rfl (by decide) (by decide)⟩

/-- C10: the emitted JSON object is built by zipping the selected data
values positionally against the selected header values, truncating to the
shorter sequence; a later pair with the same header name overwrites an
earlier one, and the object's keys are exactly the header names among the
zipped positions. -/
theorem C10_json_object :
    (∀ (r hs : List String),
      writeRendered true (some hs) r = .jsonObject (jsonObjectMap r hs)) ∧
    (∀ (r hs : List String) (q : String),
      jsonObjectMap r hs q
        = ((r.zip hs).reverse.find? fun p => p.2 == q).map Prod.fst) ∧
    (∀ (r hs : List String) (q : String),
      (jsonObjectMap r hs q).isSome = true ↔ q ∈ (r.zip hs).map Prod.snd) ∧
    (∀ (r hs : List String),
      (r.zip hs).map Prod.snd = hs.take (min r.length hs.length)) ∧
    jsonObjectMap ["1", "2"] ["a", "a"] "a" = some "2" := by
  have hb : ∀ (r hs : List String) (q : String),
      jsonObjectMap r hs q
        = ((r.zip hs).reverse.find? fun p => p.2 == q).map Prod.fst := by
    intro r hs q
    rw [jsonObjectMap, foldl_insertKV]
    cases hf : (r.zip hs).reverse.find? fun p => p.2 == q with
    | some p => rfl
    | none => rfl
  refine ⟨fun r hs => rfl, hb, ?_, zip_map_snd, by decide⟩
  intro r hs q
  rw [hb r hs q]
  constructor
  · intro h
    cases hf : (r.zip hs).reverse.find? fun p => p.2 == q with
    | none =>
      rw [hf] at h
      exact Bool.noConfusion h
    | some p =>
      have hp := List.find?_some hf
      have hmem : p ∈ (r.zip hs).reverse := List.mem_of_find?_eq_some hf
      refine List.mem_map.mpr ⟨p, List.mem_reverse.mp hmem, ?_⟩
      simpa using hp
  · intro h
    rcases List.mem_map.mp h with ⟨p, hp, hq⟩
    cases hf : (r.zip hs).reverse.find? fun p => p.2 == q with
    | some p2 => rfl
    | none =>
      have hn := List.find?_eq_none.mp hf p (List.mem_reverse.mpr hp)
      exact absurd (by simp [hq]) hn
